import Mathlib

/-!
Verification of the specification of the MRPT excerpt.

Part 1 models the thread-segmented hash table `mrpt::containers::ts_hash_map`
and its key-reduction hash `reduced_hash`.  The repository excerpt ships only
the container's unit test (`libs/containers/src/ts_hash_map_unittest.cpp`);
the container header itself is absent, so the definitions below are modelled
from the specification's data model and algorithms (fixed bucket array, one
entry list per bucket, bucket selected by `hash(key) mod N`, linear scan
within a bucket).

Part 2 embeds `CObservationBeaconRanges` from
`libs/obs/src/CObservationBeaconRanges.cpp` (serialization and
`getSensedRangeByBeaconID`), which is present in the excerpt.
-/

namespace Mrpt

/-- Modelled from the spec: the byte representation of a (ASCII) string key,
used as input to the mixing hash. The real `reduced_hash` implementation in
`mrpt/containers/ts_hash_map.h` is missing from the excerpt. -/
def strBytes (s : String) : List Nat := s.toList.map Char.toNat

/-- Modelled from the spec: one step of an FNV-1a-like 64-bit mixing function
over bytes, truncated to 64 bits. -/
def fnvStep (h b : Nat) : Nat := ((h ^^^ b) * 1099511628211) % 2 ^ 64

/-- Modelled from the spec: fold of the mixing step over a byte list. -/
def fnvAux : Nat → List Nat → Nat
  | h, [] => h
  | h, b :: tl => fnvAux (fnvStep h b) tl

/-- Modelled from the spec: the 64-bit deterministic mixing hash over a byte
list (FNV-1a offset basis). -/
def fnv64 (bs : List Nat) : Nat := fnvAux 14695981039346656037 bs

/-- Modelled from the spec: `reduced_hash` produces an unsigned integer of a
caller-chosen bit width (8/16/32/64) from a string key, by truncating the
64-bit mixing hash to the requested width.  The real implementation is
missing from the excerpt. -/
def reduced_hash (width : Nat) (s : String) : Nat := fnv64 (strBytes s) % 2 ^ width

/-- Modelled from the spec: the hash used by the string-keyed table for
bucket selection (full-width reduced hash before the `mod N`). -/
def strHash (s : String) : Nat := fnv64 (strBytes s)

/-- Modelled from the spec: a `ts_hash_map` is a fixed array of `N` buckets,
each an append-ordered list of (key, value) entries.  The bucket locks are
not represented: each operation is a pure function touching one bucket. -/
abbrev TsHashMap (K V : Type) : Type := List (List (K × V))

/-- Modelled from the spec: a fresh table with `n` empty buckets. -/
def newMap (K V : Type) (n : Nat) : TsHashMap K V := List.replicate n []

/-- Modelled from the spec: the length (bucket count) of a table. -/
def nBuckets {K V : Type} (t : TsHashMap K V) : Nat := List.length t

/-- Modelled from the spec: the bucket index of a key, `hash(key) mod N`. -/
def bucketIdx {K V : Type} (h : K → Nat) (t : TsHashMap K V) (k : K) : Nat :=
  h k % nBuckets t

/-- Modelled from the spec: within one bucket, store value `v` under key `k`:
overwrite in place the first entry holding `k`, else append a new entry. -/
def bucketStore {K V : Type} [DecidableEq K] (k : K) (v : V) :
    List (K × V) → List (K × V)
  | [] => [(k, v)]
  | e :: tl => if e.1 = k then (k, v) :: tl else e :: bucketStore k v tl

/-- Modelled from the spec: linear scan of a bucket for the first entry whose
key equals `k`. -/
def bucketFind {K V : Type} [DecidableEq K] (k : K) : List (K × V) → Option V
  | [] => none
  | e :: tl => if e.1 = k then some e.2 else bucketFind k tl

/-- Modelled from the spec: `m[k] = v`, i.e. `operator[]` followed by an
assignment through the returned reference: route to the key's bucket and
store there (overwrite if present, append otherwise). -/
def store {K V : Type} [DecidableEq K] (h : K → Nat) (t : TsHashMap K V)
    (k : K) (v : V) : TsHashMap K V :=
  List.set t (bucketIdx h t k) (bucketStore k v (List.getD t (bucketIdx h t k) []))

/-- Modelled from the spec: `find(k)`: scan only the key's bucket; `none`
models the `end()` sentinel; the table itself is returned unchanged, since
`find` never inserts. -/
def findM {K V : Type} [DecidableEq K] (h : K → Nat) (t : TsHashMap K V)
    (k : K) : TsHashMap K V × Option V :=
  (t, bucketFind k (List.getD t (bucketIdx h t k) []))

/-- Modelled from the spec: the value observed by `find(k)`. -/
def findV {K V : Type} [DecidableEq K] (h : K → Nat) (t : TsHashMap K V)
    (k : K) : Option V :=
  (findM h t k).2

/-- Modelled from the spec: `operator[]` as a reading access: if the key is
present return its stored value, else insert a default-constructed value and
return that default. The resulting table is the first component. -/
def opIndex {K V : Type} [DecidableEq K] [Inhabited V] (h : K → Nat)
    (t : TsHashMap K V) (k : K) : TsHashMap K V × V :=
  match findV h t k with
  | some v => (t, v)
  | none => (store h t k default, default)

/-- Modelled from the spec: `clear()` empties every bucket, keeping the
bucket count. -/
def clear {K V : Type} (t : TsHashMap K V) : TsHashMap K V :=
  List.map (fun _ => []) t

/-- Modelled from the spec: `empty()` holds iff every bucket holds no
entry. -/
def tblEmpty {K V : Type} (t : TsHashMap K V) : Bool :=
  List.all t List.isEmpty

/-- Modelled from the spec: full iteration yields the entries bucket by
bucket, in insertion order within each bucket. -/
def iter {K V : Type} (t : TsHashMap K V) : List (K × V) := List.flatten t

/-- Modelled from the spec: the keys visited by a full iteration. -/
def iterKeys {K V : Type} (t : TsHashMap K V) : List K :=
  List.map Prod.fst (iter t)

/-- Modelled from the spec: the table invariant: within each bucket every key
occurs at most once, and every key stored in bucket `i` satisfies
`hash(key) mod N = i`. -/
def WF {K V : Type} (h : K → Nat) (t : TsHashMap K V) : Prop :=
  ∀ i, i < nBuckets t →
    (List.map Prod.fst (List.getD t i [])).Nodup ∧
    ∀ k ∈ List.map Prod.fst (List.getD t i []), h k % nBuckets t = i

instance {K V : Type} [DecidableEq K] (h : K → Nat) (t : TsHashMap K V) :
    Decidable (WF h t) := by
  unfold WF
  infer_instance

/-- Modelled from the spec: an interleaved sequence of single-key insertions
performed on the shared table, one after the other. -/
def foldStores {K V : Type} [DecidableEq K] (h : K → Nat) (t : TsHashMap K V)
    (ops : List (K × V)) : TsHashMap K V :=
  List.foldl (fun a e => store h a e.1 e.2) t ops

end Mrpt

namespace Mrpt

/-- A concrete fresh string-keyed table with 16 buckets, as in the unit
test scenario. The double values of the test (1.0, 2.0, 3.0, 4.0) are exact
small integers, so the value type is embedded as ℤ. -/
def scenarioEmpty : TsHashMap String ℤ := newMap String ℤ 16

/-- The table after inserting uno, dos, tres with values 1, 2, 3 through
`operator[]` assignments. -/
def scenarioM3 : TsHashMap String ℤ :=
  store strHash (store strHash (store strHash scenarioEmpty "uno" 1) "dos" 2) "tres" 3

/-- The reading access performed by `m["tres"]++`: `operator[]` returns the
stored value (and the table, unchanged when the key is present). -/
def scenarioRead : TsHashMap String ℤ × ℤ := opIndex strHash scenarioM3 "tres"

/-- The table after `m["tres"]++`: the incremented value is written back
through the reference returned by `operator[]`. -/
def scenarioM4 : TsHashMap String ℤ :=
  store strHash scenarioRead.1 "tres" (scenarioRead.2 + 1)

end Mrpt

namespace Mrpt

/-- One range measurement of `CObservationBeaconRanges::TMeasurement`:
sensor location on the robot (a 3D point), sensed distance, and the beacon
identifier (an `int32_t`, embedded as a mathematical integer constrained to
the 32-bit signed range where it matters). Float/double fields are embedded
as exact rationals; the claims never exercise rounding. -/
structure TMeasurement where
  sensorLocationOnRobot : ℚ × ℚ × ℚ
  sensedDistance : ℚ
  beaconID : Int
  deriving DecidableEq

/-- The observation object: the fields written and read by
`CObservationBeaconRanges::serializeTo/serializeFrom`. `auxEstimatePose` is
a 2D pose embedded as a triple; `timestamp` as a natural number with
`INVALID_TIMESTAMP = 0`. -/
structure CObservationBeaconRanges where
  minSensorDistance : ℚ
  maxSensorDistance : ℚ
  stdError : ℚ
  sensedData : List TMeasurement
  auxEstimatePose : ℚ × ℚ × ℚ
  sensorLabel : String
  timestamp : Nat
  deriving DecidableEq

/-- The invalid-timestamp sentinel assigned when reading archives of
version < 3. -/
def INVALID_TIMESTAMP : Nat := 0

/-- One token of the serialization archive: each `<<` of the C++ code emits
one token, each `>>` consumes one. A 4-byte integer field is carried as its
unsigned wire value (`u32`); `int32_t` values are encoded two's-complement. -/
inductive Tok where
  | f (x : ℚ)
  | u32 (n : Nat)
  | pt (p : ℚ × ℚ × ℚ)
  | pose (p : ℚ × ℚ × ℚ)
  | str (s : String)
  | time (t : Nat)
  deriving DecidableEq

/-- Two's-complement encoding of an `int32_t` as its unsigned 4-byte wire
value. -/
def toU32 (i : Int) : Nat := (i % (2 ^ 32 : Int)).toNat

/-- Conversion of an unsigned 4-byte wire value to `int32_t` (the C++
assignment `beaconID = id` of a `uint32_t` into an `int32_t`). -/
def ofU32 (n : Nat) : Int :=
  if n < 2 ^ 31 then (n : Int) else (n : Int) - 2 ^ 32

/-- The three tokens written per entry by `serializeTo`:
`out << sensorLocationOnRobot << sensedDistance << beaconID`. -/
def serializeEntry (e : TMeasurement) : List Tok :=
  [Tok.pt e.sensorLocationOnRobot, Tok.f e.sensedDistance,
    Tok.u32 (toU32 e.beaconID)]

/-- `CObservationBeaconRanges::serializeTo`: writes the three scalar fields,
the entry count `n` as `uint32_t` (the `size_t` size truncated mod 2^32),
the first `n` entries, then `auxEstimatePose`, `sensorLabel`, `timestamp`. -/
def serializeTo (o : CObservationBeaconRanges) : List Tok :=
  [Tok.f o.minSensorDistance, Tok.f o.maxSensorDistance, Tok.f o.stdError,
    Tok.u32 (o.sensedData.length % 2 ^ 32)] ++
  List.flatMap (o.sensedData.take (o.sensedData.length % 2 ^ 32)) serializeEntry ++
  [Tok.pose o.auxEstimatePose, Tok.str o.sensorLabel, Tok.time o.timestamp]

/-- The entry-reading loop of `serializeFrom`: reads `n` entries, each as a
point, a float and a `uint32_t` id assigned into the `int32_t` beaconID. -/
def readEntries : Nat → List Tok → Option (List TMeasurement × List Tok)
  | 0, toks => some ([], toks)
  | n + 1, Tok.pt p :: Tok.f d :: Tok.u32 id2 :: rest =>
    match readEntries n rest with
    | some (es, r) => some (⟨p, d, ofU32 id2⟩ :: es, r)
    | none => none
  | _ + 1, _ => none

/-- `if (version >= 1) in >> auxEstimatePose;` — no `else`: the member keeps
its previous value for version 0. -/
def readAuxPose (o : CObservationBeaconRanges) (version : Nat) (toks : List Tok) :
    Except String (CObservationBeaconRanges × List Tok) :=
  if 1 ≤ version then
    match toks with
    | Tok.pose p :: r => Except.ok ({ o with auxEstimatePose := p }, r)
    | _ => Except.error "archive read"
  else Except.ok (o, toks)

/-- `if (version >= 2) in >> sensorLabel; else sensorLabel = "";`. -/
def readLabel (o : CObservationBeaconRanges) (version : Nat) (toks : List Tok) :
    Except String (CObservationBeaconRanges × List Tok) :=
  if 2 ≤ version then
    match toks with
    | Tok.str s :: r => Except.ok ({ o with sensorLabel := s }, r)
    | _ => Except.error "archive read"
  else Except.ok ({ o with sensorLabel := "" }, toks)

/-- `if (version >= 3) in >> timestamp; else timestamp = INVALID_TIMESTAMP;`. -/
def readStamp (o : CObservationBeaconRanges) (version : Nat) (toks : List Tok) :
    Except String (CObservationBeaconRanges × List Tok) :=
  if 3 ≤ version then
    match toks with
    | Tok.time s :: r => Except.ok ({ o with timestamp := s }, r)
    | _ => Except.error "archive read"
  else Except.ok ({ o with timestamp := INVALID_TIMESTAMP }, toks)

/-- `CObservationBeaconRanges::serializeFrom`: versions 0..3 read the scalar
fields, the entry count, the entries, then the version-gated tail fields,
mutating the prior object state `o0`; any other version hits the `default:`
case and throws the unknown-serialization-version error. -/
def serializeFrom (o0 : CObservationBeaconRanges) (version : Nat)
    (toks : List Tok) : Except String CObservationBeaconRanges :=
  if version ≤ 3 then
    match toks with
    | Tok.f a :: Tok.f b :: Tok.f c :: Tok.u32 n :: rest =>
      match readEntries n rest with
      | some (es, r1) =>
        let oh : CObservationBeaconRanges :=
          { o0 with minSensorDistance := a, maxSensorDistance := b,
                    stdError := c, sensedData := es }
        match readAuxPose oh version r1 with
        | Except.ok (o1, r2) =>
          match readLabel o1 version r2 with
          | Except.ok (o2, r3) =>
            match readStamp o2 version r3 with
            | Except.ok (o3, _) => Except.ok o3
            | Except.error e => Except.error e
          | Except.error e => Except.error e
        | Except.error e => Except.error e
      | none => Except.error "archive read"
    | _ => Except.error "archive read"
  else Except.error "unknown serialization version"

/-- The linear scan of `getSensedRangeByBeaconID`: first entry whose
`beaconID` matches wins; `0` when none does. -/
def getRangeAux (beaconID : Int) : List TMeasurement → ℚ
  | [] => 0
  | e :: tl => if e.beaconID = beaconID then e.sensedDistance else getRangeAux beaconID tl

/-- `CObservationBeaconRanges::getSensedRangeByBeaconID`. -/
def getSensedRangeByBeaconID (o : CObservationBeaconRanges) (beaconID : Int) : ℚ :=
  getRangeAux beaconID o.sensedData

/-- A concrete prior object state (the default-constructed observation). -/
def obsPrev : CObservationBeaconRanges := ⟨0, 0, 0, [], (0, 0, 0), "", 0⟩

/-- A concrete observation with two range measurements, one of them with a
negative beacon identifier. -/
def obsSample : CObservationBeaconRanges :=
  ⟨1, 20, 2, [⟨(1, 2, 3), 5, 7⟩, ⟨(0, 0, 0), 9, -3⟩], (4, 5, 6), "beaconSensor", 123456⟩

end Mrpt

namespace Mrpt

theorem bucketFind_bucketStore_self {K V : Type} [DecidableEq K] (k : K) (v : V)
    (b : List (K × V)) : bucketFind k (bucketStore k v b) = some v := by
  induction b with
  | nil => simp [bucketStore, bucketFind]
  | cons e tl ih =>
    by_cases he : e.1 = k
    · simp [bucketStore, he, bucketFind]
    · simp [bucketStore, he, bucketFind, ih]

theorem map_fst_bucketStore {K V : Type} [DecidableEq K] (k : K) (v : V)
    (b : List (K × V)) :
    List.map Prod.fst (bucketStore k v b) =
      if k ∈ List.map Prod.fst b then List.map Prod.fst b
      else List.map Prod.fst b ++ [k] := by
  induction b with
  | nil => simp [bucketStore]
  | cons e tl ih =>
    by_cases he : e.1 = k
    · simp [bucketStore, he]
    · have hk : ¬ k = e.1 := fun h2 => he h2.symm
      by_cases hmem : k ∈ List.map Prod.fst tl
      · simp [bucketStore, he, ih, hmem, hk]
      · simp [bucketStore, he, ih, hmem, hk]

theorem bucketFind_eq_none_iff {K V : Type} [DecidableEq K] (k : K)
    (b : List (K × V)) :
    bucketFind k b = none ↔ k ∉ List.map Prod.fst b := by
  induction b with
  | nil => simp [bucketFind]
  | cons e tl ih =>
    by_cases he : e.1 = k
    · simp [bucketFind, he]
    · have hk : ¬ k = e.1 := fun h2 => he h2.symm
      simp [bucketFind, he, hk, ih]

theorem map_fst_bucketStore_of_mem {K V : Type} [DecidableEq K] {k : K} (v : V)
    {b : List (K × V)} (hmem : k ∈ List.map Prod.fst b) :
    List.map Prod.fst (bucketStore k v b) = List.map Prod.fst b := by
  rw [map_fst_bucketStore, if_pos hmem]

theorem length_store {K V : Type} [DecidableEq K] (h : K → Nat)
    (t : TsHashMap K V) (k : K) (v : V) :
    nBuckets (store h t k v) = nBuckets t :=
  List.length_set t _ _

theorem bucketIdx_store {K V : Type} [DecidableEq K] (h : K → Nat)
    (t : TsHashMap K V) (k : K) (v : V) (k2 : K) :
    bucketIdx h (store h t k v) k2 = bucketIdx h t k2 := by
  unfold bucketIdx
  rw [length_store]

theorem bucketIdx_lt {K V : Type} (h : K → Nat) (t : TsHashMap K V) (k : K)
    (hlen : 0 < nBuckets t) : bucketIdx h t k < nBuckets t :=
  Nat.mod_lt _ hlen

theorem getD_store_ne {K V : Type} [DecidableEq K] (h : K → Nat)
    (t : TsHashMap K V) (k : K) (v : V) {j : Nat} (hj : j ≠ bucketIdx h t k) :
    List.getD (store h t k v) j [] = List.getD t j [] := by
  unfold store
  rw [List.getD_eq_getElem?_getD, List.getElem?_set_ne (Ne.symm hj),
    ← List.getD_eq_getElem?_getD]

theorem getD_store_self {K V : Type} [DecidableEq K] (h : K → Nat)
    (t : TsHashMap K V) (k : K) (v : V) (hlen : 0 < nBuckets t) :
    List.getD (store h t k v) (bucketIdx h t k) [] =
      bucketStore k v (List.getD t (bucketIdx h t k) []) := by
  unfold store
  rw [List.getD_eq_getElem?_getD, List.getElem?_set_self (bucketIdx_lt h t k hlen)]
  rfl

theorem findV_def {K V : Type} [DecidableEq K] (h : K → Nat)
    (t : TsHashMap K V) (k : K) :
    findV h t k = bucketFind k (List.getD t (bucketIdx h t k) []) := rfl

theorem findV_store_self {K V : Type} [DecidableEq K] (h : K → Nat)
    (t : TsHashMap K V) (k : K) (v : V) (hlen : 0 < nBuckets t) :
    findV h (store h t k v) k = some v := by
  rw [findV_def, bucketIdx_store, getD_store_self h t k v hlen,
    bucketFind_bucketStore_self]

theorem mem_getD_mem_iter {K V : Type} (t : TsHashMap K V) (i : Nat)
    (e : K × V) (he : e ∈ List.getD t i []) : e ∈ iter t := by
  by_cases hi : i < List.length t
  · rw [List.getD_eq_getElem t [] hi] at he
    exact List.mem_flatten.mpr ⟨t[i], List.getElem_mem hi, he⟩
  · rw [List.getD_eq_default t [] (Nat.le_of_not_lt hi)] at he
    cases he

theorem findV_eq_none_of_not_mem {K V : Type} [DecidableEq K] (h : K → Nat)
    (t : TsHashMap K V) (k : K) (habs : k ∉ iterKeys t) :
    findV h t k = none := by
  rw [findV_def]
  refine (bucketFind_eq_none_iff k _).mpr fun hmem => habs ?_
  obtain ⟨e, he, hek⟩ := List.mem_map.mp hmem
  exact List.mem_map.mpr ⟨e, mem_getD_mem_iter t _ e he, hek⟩

theorem WF_store {K V : Type} [DecidableEq K] (h : K → Nat) (t : TsHashMap K V)
    (k : K) (v : V) (hwf : WF h t) : WF h (store h t k v) := by
  intro i hi
  rw [length_store] at hi
  by_cases hib : i = bucketIdx h t k
  · subst hib
    have hlen : 0 < nBuckets t := Nat.lt_of_le_of_lt (Nat.zero_le _) hi
    rw [getD_store_self h t k v hlen, length_store, map_fst_bucketStore]
    obtain ⟨hnd, hpl⟩ := hwf _ hi
    by_cases hmem : k ∈ List.map Prod.fst (List.getD t (bucketIdx h t k) [])
    · rw [if_pos hmem]
      exact ⟨hnd, hpl⟩
    · rw [if_neg hmem]
      constructor
      · rw [List.nodup_append]
        refine ⟨hnd, List.nodup_singleton k, ?_⟩
        intro a ha hak
        rw [List.mem_singleton] at hak
        exact hmem (hak ▸ ha)
      · intro k2 hk2
        rcases List.mem_append.mp hk2 with hk2 | hk2
        · exact hpl k2 hk2
        · rw [List.mem_singleton] at hk2
          subst hk2
          rfl
  · rw [getD_store_ne h t k v hib, length_store]
    exact hwf i hi

theorem getD_clear {K V : Type} (t : TsHashMap K V) (i : Nat) :
    List.getD (Mrpt.clear t) i [] = [] := by
  unfold Mrpt.clear
  rw [List.getD_eq_getElem?_getD, List.getElem?_map]
  cases t[i]? <;> rfl

theorem WF_clear {K V : Type} (h : K → Nat) (t : TsHashMap K V) :
    WF h (Mrpt.clear t) := by
  intro i hi
  rw [getD_clear]
  simp

theorem tblEmpty_clear {K V : Type} (t : TsHashMap K V) :
    tblEmpty (Mrpt.clear t) = true := by
  unfold tblEmpty Mrpt.clear
  rw [List.all_eq_true]
  intro x hx
  obtain ⟨a, _, rfl⟩ := List.mem_map.mp hx
  rfl

theorem map_fst_flatten_set {K V : Type} (t : List (List (K × V))) (i : Nat)
    (nb : List (K × V))
    (hkeys : List.map Prod.fst nb = List.map Prod.fst (List.getD t i [])) :
    List.map Prod.fst (List.flatten (List.set t i nb)) =
      List.map Prod.fst (List.flatten t) := by
  induction t generalizing i with
  | nil => simp
  | cons hd tl ih =>
    cases i with
    | zero =>
      rw [List.getD_cons_zero] at hkeys
      simp only [List.set_cons_zero, List.flatten_cons, List.map_append, hkeys]
    | succ i2 =>
      rw [List.getD_cons_succ] at hkeys
      simp only [List.set_cons_succ, List.flatten_cons, List.map_append, ih i2 hkeys]

theorem iterKeys_store_of_found {K V : Type} [DecidableEq K] (h : K → Nat)
    (t : TsHashMap K V) (k : K) (v w : V) (hf : findV h t k = some w) :
    iterKeys (store h t k v) = iterKeys t := by
  have hmem : k ∈ List.map Prod.fst (List.getD t (bucketIdx h t k) []) := by
    by_contra hmem
    rw [findV_def, (bucketFind_eq_none_iff k _).mpr hmem] at hf
    cases hf
  unfold iterKeys iter store
  exact map_fst_flatten_set t _ _ (map_fst_bucketStore_of_mem v hmem)

theorem iterKeys_nodup {K V : Type} (h : K → Nat) (t : TsHashMap K V)
    (hwf : WF h t) : (iterKeys t).Nodup := by
  unfold iterKeys iter
  rw [List.map_flatten, List.nodup_flatten]
  constructor
  · intro l hl
    obtain ⟨b, hb, rfl⟩ := List.mem_map.mp hl
    obtain ⟨i, hi, rfl⟩ := List.mem_iff_getElem.mp hb
    have hnd := (hwf i hi).1
    rwa [List.getD_eq_getElem t [] hi] at hnd
  · rw [List.pairwise_iff_getElem]
    intro i j hi hj hij
    simp only [List.length_map] at hi hj
    rw [List.getElem_map, List.getElem_map]
    intro a hai haj
    have h1 := (hwf i hi).2 a (by rwa [List.getD_eq_getElem t [] hi])
    have h2 := (hwf j hj).2 a (by rwa [List.getD_eq_getElem t [] hj])
    exact absurd (h1.symm.trans h2) (Nat.ne_of_lt hij)

theorem foldStores_cons {K V : Type} [DecidableEq K] (h : K → Nat)
    (t : TsHashMap K V) (e : K × V) (ops : List (K × V)) :
    foldStores h t (e :: ops) = foldStores h (store h t e.1 e.2) ops := rfl

theorem length_foldStores {K V : Type} [DecidableEq K] (h : K → Nat)
    (t : TsHashMap K V) (ops : List (K × V)) :
    nBuckets (foldStores h t ops) = nBuckets t := by
  induction ops generalizing t with
  | nil => rfl
  | cons e ops ih => rw [foldStores_cons, ih, length_store]

theorem findV_foldStores_untouched {K V : Type} [DecidableEq K] (h : K → Nat)
    (t : TsHashMap K V) (ops : List (K × V)) (k : K)
    (hd : ∀ e ∈ ops, h e.1 % nBuckets t ≠ h k % nBuckets t) :
    findV h (foldStores h t ops) k = findV h t k := by
  induction ops generalizing t with
  | nil => rfl
  | cons e ops ih =>
    rw [foldStores_cons]
    have hne : h e.1 % nBuckets t ≠ h k % nBuckets t := hd e (List.mem_cons_self e ops)
    have hj : bucketIdx h t k ≠ bucketIdx h t e.1 := by
      unfold bucketIdx
      exact fun hEq => hne hEq.symm
    have hstep : findV h (store h t e.1 e.2) k = findV h t k := by
      rw [findV_def, findV_def, bucketIdx_store, getD_store_ne h t e.1 e.2 hj]
    rw [ih (store h t e.1 e.2) ?_, hstep]
    intro e2 he2
    rw [length_store]
    exact hd e2 (List.mem_cons_of_mem e he2)

theorem findV_foldStores_disjoint {K V : Type} [DecidableEq K] (h : K → Nat)
    (t : TsHashMap K V) (ops : List (K × V)) (e : K × V)
    (hlen : 0 < nBuckets t)
    (hdisj : (List.map (fun e2 => h e2.1 % nBuckets t) ops).Nodup)
    (he : e ∈ ops) :
    findV h (foldStores h t ops) e.1 = some e.2 := by
  induction ops generalizing t with
  | nil => cases he
  | cons a ops ih =>
    rw [foldStores_cons]
    have hlen2 : 0 < nBuckets (store h t a.1 a.2) := by
      rw [length_store]; exact hlen
    rcases List.mem_cons.mp he with rfl | he2
    · have hunt : ∀ e2 ∈ ops,
          h e2.1 % nBuckets (store h t e.1 e.2) ≠ h e.1 % nBuckets (store h t e.1 e.2) := by
        intro e2 he2
        rw [length_store]
        have hhd := (List.nodup_cons.mp hdisj).1
        intro hEq
        apply hhd
        show h e.1 % nBuckets t ∈ List.map (fun e2 => h e2.1 % nBuckets t) ops
        rw [← hEq]
        exact List.mem_map.mpr ⟨e2, he2, rfl⟩
      rw [findV_foldStores_untouched h (store h t e.1 e.2) ops e.1 hunt]
      exact findV_store_self h t e.1 e.2 hlen
    · refine ih (store h t a.1 a.2) hlen2 ?_ he2
      rw [length_store]
      exact (List.nodup_cons.mp hdisj).2

end Mrpt

namespace Mrpt

/-- C1: sequential scenario on a fresh string-keyed table: after inserting
uno→1, dos→2, tres→3 via `operator[]`, the increment `m["tres"]++` durably
persists the value 4 — a subsequent `m["tres"]` reads 4 and leaves the
table unchanged — and summing the `.second` fields over a full iteration
yields exactly 7. -/
theorem ts_hash_map_sequential_scenario :
    (opIndex strHash scenarioM4 "tres").2 = 4 ∧
    (opIndex strHash scenarioM4 "tres").1 = scenarioM4 ∧
    (List.map Prod.snd (iter scenarioM4)).sum = 7 :=
  ⟨by decide, by decide, by decide⟩

/-- C2: for every hash output width in {8, 16, 32, 64} bits, `reduced_hash`
maps the strings "prueba1" and "prueba2" to different values. -/
theorem reduced_hash_distinguishes_test_strings :
    reduced_hash 8 "prueba1" ≠ reduced_hash 8 "prueba2" ∧
    reduced_hash 16 "prueba1" ≠ reduced_hash 16 "prueba2" ∧
    reduced_hash 32 "prueba1" ≠ reduced_hash 32 "prueba2" ∧
    reduced_hash 64 "prueba1" ≠ reduced_hash 64 "prueba2" := by
  refine ⟨?_, ?_, ?_, ?_⟩ <;> decide

/-- C3: for every table state and every key absent from the table, `find`
returns the `end()` sentinel (embedded as `none`), does not insert the key
(the table contents are unchanged), and the miss is reported via the
sentinel, not by raising a failure (`find` is total). -/
theorem find_miss_returns_end_sentinel {K V : Type} [DecidableEq K]
    (h : K → Nat) (t : TsHashMap K V) (k : K) (habs : k ∉ iterKeys t) :
    (findM h t k).2 = none ∧ (findM h t k).1 = t :=
  ⟨findV_eq_none_of_not_mem h t k habs, rfl⟩

theorem find_miss_returns_end_sentinel_witness :
    "pepe" ∉ iterKeys scenarioM4 ∧
      (findM strHash scenarioM4 "pepe").2 = none ∧
      (findM strHash scenarioM4 "pepe").1 = scenarioM4 :=
  ⟨by decide, find_miss_returns_end_sentinel strHash scenarioM4 "pepe" (by decide)⟩

/-- C4: round-trip of insert then lookup: for every key, after storing a
value for it through `operator[]` assignment (over any prior table, so both
fresh insertion and overwrite are covered) and with no intervening
mutation, `find` returns exactly the stored value. -/
theorem find_returns_stored_value {K V : Type} [DecidableEq K] (h : K → Nat)
    (t : TsHashMap K V) (k : K) (v : V) (hlen : 0 < nBuckets t) :
    findV h (store h t k v) k = some v :=
  findV_store_self h t k v hlen

theorem find_returns_stored_value_witness :
    (0 : Nat) < nBuckets scenarioM3 ∧
      findV strHash (store strHash scenarioM3 "cuatro" 9) "cuatro" = some 9 :=
  ⟨by decide, find_returns_stored_value strHash scenarioM3 "cuatro" 9 (by decide)⟩

/-- C5: for every prior table content, `clear()` leaves the table with
`empty() = true`, and `clear()` is idempotent: calling it a second time
immediately afterwards also leaves `empty() = true` (and, being total,
raises no error). -/
theorem clear_empties_and_is_idempotent {K V : Type} (t : TsHashMap K V) :
    tblEmpty (Mrpt.clear t) = true ∧ tblEmpty (Mrpt.clear (Mrpt.clear t)) = true :=
  ⟨tblEmpty_clear t, tblEmpty_clear (Mrpt.clear t)⟩

/-- C6: for every key absent from the table, `operator[]` inserts the key
with a default-constructed value (0 for numeric value types) and returns
that stored default: the value read before any assignment is `default`,
the resulting table is exactly the table with the default entry stored,
and a lookup of the key in it yields the default. -/
theorem opIndex_fresh_inserts_default {K V : Type} [DecidableEq K]
    [Inhabited V] (h : K → Nat) (t : TsHashMap K V) (k : K)
    (hlen : 0 < nBuckets t) (habs : k ∉ iterKeys t) :
    (opIndex h t k).2 = (default : V) ∧
      (opIndex h t k).1 = store h t k default ∧
      findV h (opIndex h t k).1 k = some (default : V) := by
  have hnone : findV h t k = none := findV_eq_none_of_not_mem h t k habs
  have h1 : opIndex h t k = (store h t k default, default) := by
    unfold opIndex
    rw [hnone]
  rw [h1]
  exact ⟨rfl, rfl, findV_store_self h t k default hlen⟩

theorem opIndex_fresh_inserts_default_witness :
    ((0 : Nat) < nBuckets scenarioM3 ∧ "pepe" ∉ iterKeys scenarioM3) ∧
      ((opIndex strHash scenarioM3 "pepe").2 = (default : ℤ) ∧
        (opIndex strHash scenarioM3 "pepe").1 = store strHash scenarioM3 "pepe" default ∧
        findV strHash (opIndex strHash scenarioM3 "pepe").1 "pepe" = some (default : ℤ)) :=
  ⟨⟨by decide, by decide⟩,
    opIndex_fresh_inserts_default strHash scenarioM3 "pepe" (by decide) (by decide)⟩

/-- C7: key-uniqueness invariant: on a well-formed table (keys unique
within each bucket, every key in the bucket selected by its hash) the
invariant is preserved by `store` (any key) and by `clear`; iteration
visits each distinct key exactly once; and storing a value for a key that
is already present overwrites in place, never duplicating — the key
sequence of a full iteration is unchanged. -/
theorem key_uniqueness_invariant {K V : Type} [DecidableEq K] (h : K → Nat)
    (t : TsHashMap K V) (k : K) (v : V) (kp : K) (vp w : V)
    (hwf : WF h t) (hfound : findV h t kp = some w) :
    WF h (store h t k v) ∧ WF h (Mrpt.clear t) ∧ (iterKeys t).Nodup ∧
      iterKeys (store h t kp vp) = iterKeys t :=
  ⟨WF_store h t k v hwf, WF_clear h t, iterKeys_nodup h t hwf,
    iterKeys_store_of_found h t kp vp w hfound⟩

theorem key_uniqueness_invariant_witness :
    (WF strHash scenarioM3 ∧ findV strHash scenarioM3 "uno" = some 1) ∧
      (WF strHash (store strHash scenarioM3 "cinco" 5) ∧
        WF strHash (Mrpt.clear scenarioM3) ∧
        (iterKeys scenarioM3).Nodup ∧
        iterKeys (store strHash scenarioM3 "uno" 11) = iterKeys scenarioM3) :=
  ⟨⟨by decide, by decide⟩,
    key_uniqueness_invariant strHash scenarioM3 "cinco" 5 "uno" 11 1
      (by decide) (by decide)⟩

/-- C8: every single-key write touches exactly one bucket — the one
selected by the reduced hash modulo the bucket count: any other bucket is
unchanged — and for any interleaved sequence of insertions whose keys hash
to pairwise disjoint buckets, every insertion is visible to a subsequent
full lookup (no lost updates). -/
theorem single_bucket_locality_no_lost_updates {K V : Type} [DecidableEq K]
    (h : K → Nat) (t : TsHashMap K V) (k : K) (v : V) (j : Nat)
    (ops : List (K × V)) (e : K × V)
    (hlen : 0 < nBuckets t) (hj : j ≠ bucketIdx h t k)
    (hdisj : (List.map (fun e2 => h e2.1 % nBuckets t) ops).Nodup)
    (he : e ∈ ops) :
    List.getD (store h t k v) j [] = List.getD t j [] ∧
      findV h (foldStores h t ops) e.1 = some e.2 :=
  ⟨getD_store_ne h t k v hj, findV_foldStores_disjoint h t ops e hlen hdisj he⟩

theorem ofU32_toU32 (i : Int) (h1 : -(2 ^ 31 : Int) ≤ i) (h2 : i < 2 ^ 31) :
    ofU32 (toU32 i) = i := by
  unfold toU32 ofU32
  split <;> omega

theorem readEntries_serialized (es : List TMeasurement) (r : List Tok)
    (hid : ∀ e ∈ es, -(2 ^ 31 : Int) ≤ e.beaconID ∧ e.beaconID < 2 ^ 31) :
    readEntries es.length (List.flatMap es serializeEntry ++ r) = some (es, r) := by
  induction es with
  | nil => rfl
  | cons e tl ih =>
    have hide := hid e (List.mem_cons_self e tl)
    have hids : ∀ e2 ∈ tl, -(2 ^ 31 : Int) ≤ e2.beaconID ∧ e2.beaconID < 2 ^ 31 :=
      fun e2 he2 => hid e2 (List.mem_cons_of_mem e he2)
    have key : readEntries (e :: tl).length (List.flatMap (e :: tl) serializeEntry ++ r) =
        match readEntries tl.length (List.flatMap tl serializeEntry ++ r) with
        | some (es, r2) =>
          some (⟨e.sensorLocationOnRobot, e.sensedDistance, ofU32 (toU32 e.beaconID)⟩ :: es, r2)
        | none => none := rfl
    rw [key, ih hids, ofU32_toU32 e.beaconID hide.1 hide.2]

theorem serializeFrom_v3_shape (o0 : CObservationBeaconRanges) (a b c : ℚ)
    (es : List TMeasurement) (p : ℚ × ℚ × ℚ) (s : String) (ts : Nat)
    (hid : ∀ e ∈ es, -(2 ^ 31 : Int) ≤ e.beaconID ∧ e.beaconID < 2 ^ 31) :
    serializeFrom o0 3
        (Tok.f a :: Tok.f b :: Tok.f c :: Tok.u32 es.length ::
          (List.flatMap es serializeEntry ++ [Tok.pose p, Tok.str s, Tok.time ts])) =
      Except.ok ⟨a, b, c, es, p, s, ts⟩ := by
  simp only [serializeFrom, readEntries_serialized es [Tok.pose p, Tok.str s, Tok.time ts] hid,
    readAuxPose, readLabel, readStamp]
  norm_num

theorem getRangeAux_eq (id2 : Int) (l : List TMeasurement) :
    getRangeAux id2 l =
      (Option.map TMeasurement.sensedDistance
        (List.find? (fun e => decide (e.beaconID = id2)) l)).getD 0 := by
  induction l with
  | nil => rfl
  | cons e tl ih =>
    by_cases he : e.beaconID = id2
    · rw [List.find?_cons_of_pos _ (by simpa using he)]
      simp [getRangeAux, he]
    · rw [List.find?_cons_of_neg _ (by simpa using he)]
      simp only [getRangeAux, if_neg he]
      exact ih

theorem single_bucket_locality_no_lost_updates_witness :
    ((0 : Nat) < nBuckets scenarioEmpty ∧
      (0 : Nat) ≠ bucketIdx strHash scenarioEmpty "uno" ∧
      (List.map (fun e2 => strHash e2.1 % nBuckets scenarioEmpty)
        [("uno", (1 : ℤ)), ("dos", 2), ("tres", 3)]).Nodup ∧
      ("dos", (2 : ℤ)) ∈ [("uno", (1 : ℤ)), ("dos", 2), ("tres", 3)]) ∧
      (List.getD (store strHash scenarioEmpty "uno" 1) 0 [] =
          List.getD scenarioEmpty 0 [] ∧
        findV strHash
            (foldStores strHash scenarioEmpty
              [("uno", (1 : ℤ)), ("dos", 2), ("tres", 3)]) "dos" = some 2) :=
  ⟨⟨by decide, by decide, by decide, by decide⟩,
    single_bucket_locality_no_lost_updates strHash scenarioEmpty "uno" 1 0
      [("uno", (1 : ℤ)), ("dos", 2), ("tres", 3)] ("dos", 2)
      (by decide) (by decide) (by decide) (by decide)⟩

/-- C9: serialization round-trip for `CObservationBeaconRanges`: for every
observation (with a representable entry count and `int32_t` beacon ids),
writing with `serializeTo` and reading back with `serializeFrom` at
version 3 restores `minSensorDistance`, `maxSensorDistance`, `stdError`,
every `sensedData` entry in order (`sensorLocationOnRobot`,
`sensedDistance`, `beaconID`), `auxEstimatePose`, `sensorLabel` and
`timestamp`; and `serializeFrom` with any version greater than 3 throws
the unknown-serialization-version error. -/
theorem beacon_serialization_roundtrip_v3 (o0 o : CObservationBeaconRanges)
    (v : Nat) (toks : List Tok)
    (hlen : o.sensedData.length < 2 ^ 32)
    (hid : ∀ e ∈ o.sensedData, -(2 ^ 31 : Int) ≤ e.beaconID ∧ e.beaconID < 2 ^ 31)
    (hv : 3 < v) :
    serializeFrom o0 3 (serializeTo o) = Except.ok o ∧
      serializeFrom o0 v toks = Except.error "unknown serialization version" := by
  constructor
  · have hshape := serializeFrom_v3_shape o0 o.minSensorDistance o.maxSensorDistance
      o.stdError o.sensedData o.auxEstimatePose o.sensorLabel o.timestamp hid
    have hto : serializeTo o =
        Tok.f o.minSensorDistance :: Tok.f o.maxSensorDistance :: Tok.f o.stdError ::
          Tok.u32 o.sensedData.length ::
          (List.flatMap o.sensedData serializeEntry ++
            [Tok.pose o.auxEstimatePose, Tok.str o.sensorLabel, Tok.time o.timestamp]) := by
      unfold serializeTo
      rw [Nat.mod_eq_of_lt hlen, List.take_length]
      simp [List.append_assoc]
    rw [hto, hshape]
  · unfold serializeFrom
    rw [if_neg (by omega)]

theorem beacon_serialization_roundtrip_v3_witness :
    (obsSample.sensedData.length < 2 ^ 32 ∧
      (∀ e ∈ obsSample.sensedData,
        -(2 ^ 31 : Int) ≤ e.beaconID ∧ e.beaconID < 2 ^ 31) ∧
      3 < 4) ∧
      (serializeFrom obsPrev 3 (serializeTo obsSample) = Except.ok obsSample ∧
        serializeFrom obsPrev 4 [] = Except.error "unknown serialization version") :=
  ⟨⟨by decide, by decide, by decide⟩,
    beacon_serialization_roundtrip_v3 obsPrev obsSample 4 []
      (by decide) (by decide) (by decide)⟩

/-- C10: `getSensedRangeByBeaconID` returns the `sensedDistance` of the
first `sensedData` entry whose `beaconID` matches the argument, and returns
0 when no stored entry has that id — the miss is signalled in no other way
(the function is total and returns a plain value). -/
theorem getSensedRangeByBeaconID_first_match_or_zero
    (o : CObservationBeaconRanges) (id2 : Int) :
    getSensedRangeByBeaconID o id2 =
      (Option.map TMeasurement.sensedDistance
        (List.find? (fun e => decide (e.beaconID = id2)) o.sensedData)).getD 0 :=
  getRangeAux_eq id2 o.sensedData

end Mrpt
